import Mathlib

/-!
Verification of the article-extraction pipeline of the HR-newpick repository
(`src/main.py`), against its natural-language design document.

The core is `extract_articles_from_html`, which parses a newsletter HTML body
into a deduplicated, capped list of article records.  HTML parsing itself is
done by an external library (BeautifulSoup); we embed its *result*: a list of
candidate containers (the `<table align="center">` blocks), each carrying the
data the Python code reads from it — the first hyperlink tag with an `href`
attribute (and the text of the first `<strong>` tag inside it), and the list
of `<span>` tags with their `style` attribute and stripped text.  The outer
try/except of the Python function is embedded by feeding the function an
`Except` value: `.error` is the path where the parse raised.

Python string primitives (`in`, `startswith`, slicing, `len`) are embedded as
character-list operations (`strIn`, `pyStartsWith`, `pyTake`, `pyLen`).
-/

/-- Python `pat` is a prefix of `s`, on character lists. -/
def listStartsWith : List Char → List Char → Bool
  | [], _ => true
  | _ :: _, [] => false
  | p :: ps, c :: cs => p == c && listStartsWith ps cs

/-- Python substring containment over character lists: the pattern occurs
contiguously somewhere in the second list. -/
def listContainsSub (pat : List Char) : List Char → Bool
  | [] => listStartsWith pat []
  | c :: cs => listStartsWith pat (c :: cs) || listContainsSub pat cs

/-- Python `pat in s` (substring containment). -/
def strIn (pat s : String) : Bool := listContainsSub pat.data s.data

/-- Python `s.startswith(pat)`. -/
def pyStartsWith (s pat : String) : Bool := listStartsWith pat.data s.data

/-- Python `s[:n]` (character slicing from the start). -/
def pyTake (s : String) (n : Nat) : String := String.mk (s.data.take n)

/-- Python `len(s)` in characters. -/
def pyLen (s : String) : Nat := s.data.length

/-- A `<span>` inside a candidate container: its `style` attribute
(`span.get('style', '')`, defaulting to the empty string) and its stripped
visible text (`span.get_text(strip=True)`). -/
structure Span where
  style : String
  text : String
deriving DecidableEq

/-- The first `<a>` tag with an `href` attribute inside a container
(`table.find('a', href=True)`): its `href` value, and the stripped text of the
first `<strong>` tag inside it when one exists (`link_tag.find('strong')`). -/
structure ATag where
  href : String
  strongText : Option String
deriving DecidableEq

/-- A candidate container: one `<table align="center">` block, as the Python
code reads it — its first hyperlink tag (if any) and all its spans in
document order (`table.find_all('span')`). -/
structure Table where
  linkTag : Option ATag
  spans : List Span
deriving DecidableEq

/-- One extracted article record `{'title': ..., 'summary': ..., 'link': ...}`. -/
structure Article where
  title : String
  summary : String
  link : String
deriving DecidableEq

/-- The per-container body of the extraction loop in
`extract_articles_from_html` (src/main.py lines 204-245), up to but not
including the duplicate check: returns the record the container would
contribute, or `none` when one of the `continue` branches fires.

Mirrors, in order: no hyperlink → skip; empty or scheme-less `href` → skip;
tracking-domain `href` → skip; no `<strong>` inside the link → skip; sponsor
title → skip; then the summary scan over the spans (first span whose style
mentions `font-family`, whose text is longer than 30 characters and differs
from the title), the `title[:200]` fallback, and the `summary[:300]` cap. -/
def tableRecord (t : Table) : Option Article :=
  match t.linkTag with
  | none => none
  | some linkTag =>
    let link_url := linkTag.href
    if link_url == "" || !(strIn "http" link_url) then none
    else if strIn "tldr.tech" link_url || strIn "techplatforms.com" link_url then none
    else match linkTag.strongText with
      | none => none
      | some title =>
        if strIn "(Sponsor)" title || pyStartsWith title "Looking for a practical"
            || pyStartsWith title "Get it free" || pyStartsWith title "Try it free"
            || pyStartsWith title "Together With" then none
        else
          let summary :=
            match t.spans.find? (fun span =>
                strIn "font-family" span.style && decide (pyLen span.text > 30)
                  && !(span.text == title)) with
            | some span => span.text
            | none => ""
          let summary := if summary == "" then pyTake title 200 else summary
          some { title := title, summary := pyTake summary 300, link := link_url }

/-- The duplicate check and append of `extract_articles_from_html`
(src/main.py lines 247-253): the container's record is appended unless a
record with the same `link` is already accumulated. -/
def addArticle (articles : List Article) (t : Table) : List Article :=
  match tableRecord t with
  | none => articles
  | some a => if articles.any (fun article => article.link == a.link) then articles
              else articles ++ [a]

/-- `extract_articles_from_html` (src/main.py lines 174-264).  The input is
the outcome of the BeautifulSoup parse and container search: `.ok tables`
holds the `<table align="center">` blocks in document order; `.error` is the
path where parsing raised, which the `except` clause turns into `[]`.  The
loop folds `addArticle` over the containers and the result is capped to the
first 20 records (`articles[:20]`). -/
def extract_articles_from_html (parsed : Except String (List Table)) : List Article :=
  match parsed with
  | .error _ => []
  | .ok tables => (tables.foldl addArticle []).take 20

/-- Case analysis for one loop step: either the accumulator is unchanged (and
any record the container produced is a duplicate of an accumulated link), or
the container's record is appended and its link was not yet accumulated. -/
lemma addArticle_eq_or_append (acc : List Article) (t : Table) :
    (addArticle acc t = acc ∧
      ∀ r, tableRecord t = some r → ∃ a ∈ acc, a.link = r.link) ∨
      ∃ r, tableRecord t = some r ∧ (∀ a ∈ acc, a.link ≠ r.link) ∧
        addArticle acc t = acc ++ [r] := by
  unfold addArticle
  cases htr : tableRecord t with
  | none => exact Or.inl ⟨rfl, by simp⟩
  | some r =>
    by_cases hany : acc.any (fun article => article.link == r.link)
    · refine Or.inl ⟨by simp [hany], ?_⟩
      intro r' hr'
      obtain rfl : r = r' := by injection hr'
      obtain ⟨a, ha, haeq⟩ := List.any_eq_true.1 hany
      exact ⟨a, ha, by simpa using haeq⟩
    · refine Or.inr ⟨r, rfl, ?_, by simp [hany]⟩
      intro a ha
      simp only [List.any_eq_true, not_exists, not_and] at hany
      simpa using fun h => hany a ha (by simp [h])

/-- Accumulated records are never removed by a loop step. -/
lemma mem_addArticle {a : Article} {acc : List Article} (t : Table) (h : a ∈ acc) :
    a ∈ addArticle acc t := by
  rcases addArticle_eq_or_append acc t with ⟨heq, -⟩ | ⟨r, -, -, heq⟩ <;>
    · rw [heq]; simp [h]

/-- Accumulated records are never removed by the extraction loop. -/
lemma mem_foldl_addArticle {a : Article} :
    ∀ (ts : List Table) (acc : List Article), a ∈ acc → a ∈ ts.foldl addArticle acc
  | [], _, h => h
  | t :: ts, acc, h => mem_foldl_addArticle ts (addArticle acc t) (mem_addArticle t h)

/-- The loop preserves pairwise distinctness of accumulated links. -/
lemma pairwise_foldl_addArticle :
    ∀ (ts : List Table) (acc : List Article),
      acc.Pairwise (fun a b => a.link ≠ b.link) →
      (ts.foldl addArticle acc).Pairwise (fun a b => a.link ≠ b.link)
  | [], _, h => h
  | t :: ts, acc, h => by
    refine pairwise_foldl_addArticle ts (addArticle acc t) ?_
    rcases addArticle_eq_or_append acc t with ⟨heq, -⟩ | ⟨r, -, hnew, heq⟩
    · rw [heq]; exact h
    · rw [heq, List.pairwise_append]
      exact ⟨h, List.pairwise_singleton _ _, by simpa using hnew⟩

/-- Provenance with first-wins: every record produced by the loop was already
accumulated, or is the record of a container no earlier container of the list
matched in link (and its link was not yet accumulated when the list started). -/
lemma foldl_addArticle_provenance {r : Article} :
    ∀ (ts : List Table) (acc : List Article), r ∈ ts.foldl addArticle acc →
      r ∈ acc ∨
        ∃ pre t post, ts = pre ++ t :: post ∧ tableRecord t = some r ∧
          (∀ a ∈ acc, a.link ≠ r.link) ∧
          ∀ t' ∈ pre, ∀ r', tableRecord t' = some r' → r'.link ≠ r.link
  | [], acc, h => Or.inl h
  | t :: ts, acc, h => by
    rcases foldl_addArticle_provenance ts (addArticle acc t) h with hmem | hex
    · -- the record was present right after processing t
      rcases addArticle_eq_or_append acc t with ⟨heq, -⟩ | ⟨r₀, htr₀, hnew, heq⟩
      · rw [heq] at hmem; exact Or.inl hmem
      · rw [heq] at hmem
        rcases List.mem_append.1 hmem with hacc | hr
        · exact Or.inl hacc
        · have hr' := List.mem_singleton.1 hr
          subst hr'
          exact Or.inr ⟨[], t, ts, rfl, htr₀, hnew, by simp⟩
    · -- the record was produced while processing ts
      obtain ⟨pre, t'', post, hts, htr, hfresh, hfirst⟩ := hex
      refine Or.inr ⟨t :: pre, t'', post, by simp [hts], htr, ?_, ?_⟩
      · intro a ha
        exact hfresh a (mem_addArticle t ha)
      · intro t' ht' r' htr'
        rcases List.mem_cons.1 ht' with hEq | hpre
        · -- t itself produced r'; its link is accumulated after the step,
          -- while r's link is fresh relative to that accumulator
          rw [hEq] at htr'
          rcases addArticle_eq_or_append acc t with ⟨-, hdup⟩ | ⟨r₀, htr₀, -, heq⟩
          · obtain ⟨a, ha, halink⟩ := hdup r' htr'
            have hne := hfresh a (mem_addArticle t ha)
            rw [← halink]
            exact hne
          · obtain rfl : r₀ = r' := by rw [htr₀] at htr'; injection htr'
            have hmem₀ : r₀ ∈ addArticle acc t := by rw [heq]; simp
            exact hfresh r₀ hmem₀
        · exact hfirst t' hpre r' htr'






/-- When the records produced by the containers have pairwise-distinct links
(none of which is already accumulated), the loop appends them all in order. -/
lemma foldl_addArticle_nodup :
    ∀ (ts : List Table) (acc : List Article),
      (ts.filterMap tableRecord).Pairwise (fun a b => a.link ≠ b.link) →
      (∀ r ∈ ts.filterMap tableRecord, ∀ a ∈ acc, a.link ≠ r.link) →
      ts.foldl addArticle acc = acc ++ ts.filterMap tableRecord
  | [], acc, _, _ => by simp
  | t :: ts, acc, hnd, hfresh => by
    cases htr : tableRecord t with
    | none =>
      have hfmc : (t :: ts).filterMap tableRecord = ts.filterMap tableRecord := by
        simp [List.filterMap_cons, htr]
      rw [hfmc] at hnd hfresh
      have hstep : addArticle acc t = acc := by simp [addArticle, htr]
      rw [List.foldl_cons, hstep, hfmc]
      exact foldl_addArticle_nodup ts acc hnd hfresh
    | some r =>
      have hfmc : (t :: ts).filterMap tableRecord = r :: ts.filterMap tableRecord := by
        simp [List.filterMap_cons, htr]
      rw [hfmc] at hnd hfresh
      have hnd' := List.pairwise_cons.1 hnd
      have hstep : addArticle acc t = acc ++ [r] := by
        unfold addArticle
        rw [htr]
        have hany : acc.any (fun article => article.link == r.link) = false := by
          simp only [List.any_eq_false]
          intro a ha
          simpa using hfresh r (by simp) a ha
        simp [hany]
      rw [List.foldl_cons, hstep, hfmc]
      have hrec := foldl_addArticle_nodup ts (acc ++ [r]) hnd'.2 ?_
      · rw [hrec]; simp
      · intro r' hr' a ha
        rcases List.mem_append.1 ha with h1 | h2
        · exact hfresh r' (by simp [hr']) a h1
        · rw [List.mem_singleton.1 h2]
          exact hnd'.1 r' hr'

/-- In a list whose links are pairwise distinct, at most one element carries
any given link. -/
lemma pairwise_countP_le_one {l : List Article}
    (h : l.Pairwise (fun a b => a.link ≠ b.link)) (x : String) :
    l.countP (fun a => a.link == x) ≤ 1 := by
  induction l with
  | nil => simp
  | cons a l ih =>
    have h' := List.pairwise_cons.1 h
    rw [List.countP_cons]
    by_cases hax : a.link = x
    · have hzero : l.countP (fun b => b.link == x) = 0 := by
        apply List.countP_eq_zero.2
        intro b hb
        have hne := h'.1 b hb
        simp only [← hax]
        simpa using fun hc => hne hc.symm
      simp [hax, hzero]
    · simpa [hax] using ih h'.2

/-- Two containers carrying the same link but different titles, and the record
the first of them produces; inputs for exercising the duplicate check. -/
def tDupA : Table := ⟨some ⟨"http://dup.com", some "First Title"⟩, []⟩

/-- Second container with the same link as `tDupA` but another title. -/
def tDupB : Table := ⟨some ⟨"http://dup.com", some "Second Title"⟩, []⟩

/-- The record `tDupA` produces on its own. -/
def rDupA : Article := ⟨"First Title", "First Title", "http://dup.com"⟩

/-- C1: the result of `extract_articles_from_html` has pairwise-distinct link
values — at most one record per link — and every returned record is the record
of the first (document-order) container carrying its link, so when two
containers share a link the earlier one's title and summary win and the later
duplicate is dropped. -/
theorem extract_dedup_first_wins (ts : List Table) :
    (extract_articles_from_html (.ok ts)).Pairwise (fun a b => a.link ≠ b.link) ∧
    (∀ l, (extract_articles_from_html (.ok ts)).countP (fun a => a.link == l) ≤ 1) ∧
    ∀ r ∈ extract_articles_from_html (.ok ts),
      ∃ pre t post, ts = pre ++ t :: post ∧ tableRecord t = some r ∧
        ∀ t' ∈ pre, ∀ r', tableRecord t' = some r' → r'.link ≠ r.link := by
  have hfold := pairwise_foldl_addArticle ts [] List.Pairwise.nil
  have hpw : (extract_articles_from_html (.ok ts)).Pairwise (fun a b => a.link ≠ b.link) := by
    simp only [extract_articles_from_html]
    exact List.Pairwise.sublist (List.take_sublist _ _) hfold
  refine ⟨hpw, fun l => pairwise_countP_le_one hpw l, ?_⟩
  intro r hr
  simp only [extract_articles_from_html] at hr
  have hr' : r ∈ ts.foldl addArticle [] := (List.take_sublist _ _).subset hr
  rcases foldl_addArticle_provenance ts [] hr' with hmem | ⟨pre, t, post, hts, htr, -, hfirst⟩
  · exact absurd hmem (List.not_mem_nil r)
  · exact ⟨pre, t, post, hts, htr, hfirst⟩

/-- Witness for C1 at a concrete input: two containers with the same link;
exactly the first one's record is returned, and the provenance clause of the
theorem applies to it. -/
theorem extract_dedup_first_wins_witness :
    extract_articles_from_html (.ok [tDupA, tDupB]) = [rDupA] ∧
    ∃ pre t post, [tDupA, tDupB] = pre ++ t :: post ∧ tableRecord t = some rDupA ∧
      ∀ t' ∈ pre, ∀ r', tableRecord t' = some r' → r'.link ≠ rDupA.link :=
  ⟨by decide, (extract_dedup_first_wins [tDupA, tDupB]).2.2 rDupA (by decide)⟩

/-- Twenty-five valid, pairwise-distinct candidate containers. -/
def capTables : List Table :=
  (List.range 25).map (fun i =>
    ⟨some ⟨"http://a" ++ toString i ++ ".com", some ("Title " ++ toString i)⟩, []⟩)

/-- C2: the result of `extract_articles_from_html` never exceeds 20 records,
and when the containers' produced records have pairwise-distinct links (e.g.
25 valid candidates), the result is exactly the first 20 produced records in
document order, the excess being discarded after all containers are
processed. -/
theorem extract_cap_twenty (ts : List Table) :
    (extract_articles_from_html (.ok ts)).length ≤ 20 ∧
    (((ts.filterMap tableRecord).map (fun a => a.link)).Nodup →
      extract_articles_from_html (.ok ts) = (ts.filterMap tableRecord).take 20) := by
  constructor
  · simp only [extract_articles_from_html]
    exact List.length_take_le _ _
  · intro hnd
    have hpw : (ts.filterMap tableRecord).Pairwise (fun a b => a.link ≠ b.link) :=
      List.pairwise_map.1 hnd
    simp only [extract_articles_from_html]
    rw [foldl_addArticle_nodup ts [] hpw (by simp)]
    simp

/-- Witness for C2: 25 valid containers yield exactly the first 20 records. -/
theorem extract_cap_twenty_witness :
    ((capTables.filterMap tableRecord).map (fun a => a.link)).Nodup ∧
    extract_articles_from_html (.ok capTables) = (capTables.filterMap tableRecord).take 20 ∧
    (extract_articles_from_html (.ok capTables)).length = 20 :=
  ⟨by decide, (extract_cap_twenty capTables).2 (by decide), by decide⟩

/-- Full characterization of a successful `tableRecord`: the container had a
hyperlink with a bold title, every filter passed (non-empty scheme-bearing
href, no tracking domain, no sponsor marker), the record's link and title are
the container's, and its summary is the first qualifying span's text capped to
300 characters, falling back to the title capped to 200. -/
lemma tableRecord_some_spec {t : Table} {r : Article} (h : tableRecord t = some r) :
    ∃ a title, t.linkTag = some a ∧ a.strongText = some title ∧
      r.title = title ∧ r.link = a.href ∧
      (a.href == "") = false ∧ strIn "http" a.href = true ∧
      strIn "tldr.tech" a.href = false ∧ strIn "techplatforms.com" a.href = false ∧
      strIn "(Sponsor)" title = false ∧
      pyStartsWith title "Looking for a practical" = false ∧
      pyStartsWith title "Get it free" = false ∧
      pyStartsWith title "Try it free" = false ∧
      pyStartsWith title "Together With" = false ∧
      r.summary = (match t.spans.find? (fun span =>
          strIn "font-family" span.style && decide (pyLen span.text > 30)
            && !(span.text == title)) with
        | some span => pyTake span.text 300
        | none => pyTake title 200) := by
  obtain ⟨lt, spans⟩ := t
  cases lt with
  | none => simp [tableRecord] at h
  | some a =>
    obtain ⟨href, stext⟩ := a
    simp only [tableRecord] at h
    cases h1 : (href == "" || !(strIn "http" href)) with
    | true => rw [h1] at h; simp at h
    | false =>
      rw [h1] at h
      simp only [Bool.false_eq_true, if_false] at h
      cases h2 : (strIn "tldr.tech" href || strIn "techplatforms.com" href) with
      | true => rw [h2] at h; simp at h
      | false =>
        rw [h2] at h
        simp only [Bool.false_eq_true, if_false] at h
        cases stext with
        | none => simp at h
        | some title =>
          dsimp only at h
          cases h3 : (strIn "(Sponsor)" title || pyStartsWith title "Looking for a practical"
              || pyStartsWith title "Get it free" || pyStartsWith title "Try it free"
              || pyStartsWith title "Together With") with
          | true => rw [h3] at h; simp at h
          | false =>
            rw [h3] at h
            simp only [Bool.false_eq_true, if_false] at h
            have h1' := Bool.or_eq_false_iff.mp h1
            have h2' := Bool.or_eq_false_iff.mp h2
            simp only [Bool.or_eq_false_iff] at h3
            obtain rfl : _ = r := Option.some.inj h
            refine ⟨⟨href, some title⟩, title, rfl, rfl, rfl, rfl, h1'.1, ?_,
              h2'.1, h2'.2, h3.1.1.1.1, h3.1.1.1.2, h3.1.1.2, h3.1.2, h3.2, ?_⟩
            · simpa using h1'.2
            · cases hf : spans.find? (fun span =>
                  strIn "font-family" span.style && decide (pyLen span.text > 30)
                    && !(span.text == title)) with
              | none =>
                simp only [hf]
                have : pyTake (pyTake title 200) 300 = pyTake title 200 := by
                  simp [pyTake, List.take_take]
                simpa [hf] using this
              | some sp =>
                have hpred := List.find?_some hf
                simp only [Bool.and_eq_true, decide_eq_true_eq] at hpred
                have hne : (sp.text == "") = false := by
                  cases htext : sp.text == "" with
                  | false => rfl
                  | true =>
                    have : sp.text = "" := by simpa using htext
                    rw [this] at hpred
                    simp [pyLen] at hpred
                simp [hf, hne]

/-- A container whose bold title text is empty: `<strong></strong>`. -/
def tEmptyTitle : Table := ⟨some ⟨"http://x.com", some ""⟩, []⟩

/-- Counterexample to C3 as stated: the code never checks the title for
emptiness, so a container whose `<strong>` tag has empty stripped text yields
a record with an empty title. -/
theorem extract_empty_title_counterexample :
    ¬ (∀ r ∈ extract_articles_from_html (.ok [tEmptyTitle]), r.title ≠ "") := by
  decide

/-- C3 (amended): every record returned by `extract_articles_from_html` has a
link containing the URL-scheme marker "http"; no record is emitted with a
scheme-less link.  (The title, however, may be empty: only the link is
checked.) -/
theorem extract_link_has_scheme (p : Except String (List Table)) (r : Article)
    (h : r ∈ extract_articles_from_html p) : strIn "http" r.link = true := by
  cases p with
  | error e => simp [extract_articles_from_html] at h
  | ok ts =>
    simp only [extract_articles_from_html] at h
    have hr' : r ∈ ts.foldl addArticle [] := (List.take_sublist _ _).subset h
    rcases foldl_addArticle_provenance ts [] hr' with hmem | ⟨pre, t, post, hts, htr, -, -⟩
    · exact absurd hmem (List.not_mem_nil r)
    · obtain ⟨a, title, -, -, -, hlink, -, hhttp, -⟩ := tableRecord_some_spec htr
      rw [hlink]
      exact hhttp

/-- Witness for the amended C3, at the empty-title record itself. -/
theorem extract_link_has_scheme_witness :
    strIn "http" (Article.mk "" "" "http://x.com").link = true :=
  extract_link_has_scheme (.ok [tEmptyTitle]) (Article.mk "" "" "http://x.com") (by decide)

/-- C4: for every container that yields a record, the record's summary is the
text of the first span (document order) whose style declaration contains
"font-family", whose text length exceeds 30 characters, and whose text differs
from the title, truncated to 300 characters; if no span qualifies, the summary
is the title truncated to 200 characters. -/
theorem extract_summary_rule (t : Table) (r : Article) (h : tableRecord t = some r) :
    r.summary = (match t.spans.find? (fun span =>
        strIn "font-family" span.style && decide (pyLen span.text > 30)
          && !(span.text == r.title)) with
      | some span => pyTake span.text 300
      | none => pyTake r.title 200) := by
  obtain ⟨a, title, -, -, hrt, -, -, -, -, -, -, -, -, -, -, hsum⟩ := tableRecord_some_spec h
  rw [hrt]
  exact hsum

/-- Container with a 500-character qualifying span. -/
def tLongSpan : Table :=
  ⟨some ⟨"http://long.com", some "Long Title"⟩,
   [⟨"font-family:arial", String.mk (List.replicate 500 'a')⟩]⟩

/-- The record `tLongSpan` produces. -/
def rLongSpan : Article :=
  ⟨"Long Title", String.mk (List.replicate 300 'a'), "http://long.com"⟩

/-- Container with a title but no qualifying span (fallback path). -/
def tNoSpan : Table := ⟨some ⟨"http://nospan.com", some "Fallback Title"⟩, [⟨"", "short"⟩]⟩

/-- The record `tNoSpan` produces. -/
def rNoSpan : Article := ⟨"Fallback Title", "Fallback Title", "http://nospan.com"⟩

set_option maxRecDepth 100000 in
/-- Witness for C4: a qualifying 500-character span yields exactly its first
300 characters as the summary, and with no qualifying span the summary is the
title truncated to 200 characters. -/
theorem extract_summary_rule_witness :
    (rLongSpan.summary = (match tLongSpan.spans.find? (fun span =>
        strIn "font-family" span.style && decide (pyLen span.text > 30)
          && !(span.text == rLongSpan.title)) with
      | some span => pyTake span.text 300
      | none => pyTake rLongSpan.title 200)) ∧
    rLongSpan.summary = String.mk (List.replicate 300 'a') ∧
    pyLen (String.mk (List.replicate 500 'a')) = 500 ∧
    (rNoSpan.summary = (match tNoSpan.spans.find? (fun span =>
        strIn "font-family" span.style && decide (pyLen span.text > 30)
          && !(span.text == rNoSpan.title)) with
      | some span => pyTake span.text 300
      | none => pyTake rNoSpan.title 200)) ∧
    rNoSpan.summary = pyTake rNoSpan.title 200 :=
  ⟨extract_summary_rule tLongSpan rLongSpan (by decide), by decide, by decide,
   extract_summary_rule tNoSpan rNoSpan (by decide), by decide⟩

/-- C5: a container whose extracted title contains "(Sponsor)" or starts with
one of the fixed promotional lead-in phrases produces no record: its
`tableRecord` is `none` and the extraction loop step leaves any accumulator
unchanged, regardless of the container's other attributes. -/
theorem sponsor_container_skipped (acc : List Article) (t : Table) (a : ATag)
    (title : String) (hlt : t.linkTag = some a) (hst : a.strongText = some title)
    (hsp : (strIn "(Sponsor)" title || pyStartsWith title "Looking for a practical"
      || pyStartsWith title "Get it free" || pyStartsWith title "Try it free"
      || pyStartsWith title "Together With") = true) :
    tableRecord t = none ∧ addArticle acc t = acc := by
  have hnone : tableRecord t = none := by
    cases htr : tableRecord t with
    | none => rfl
    | some r =>
      obtain ⟨a', title', hlt', hst', -, -, -, -, -, -, hs1, hs2, hs3, hs4, hs5, -⟩ :=
        tableRecord_some_spec htr
      rw [hlt] at hlt'
      obtain rfl : a = a' := by injection hlt'
      rw [hst] at hst'
      obtain rfl : title = title' := by injection hst'
      rw [hs1, hs2, hs3, hs4, hs5] at hsp
      simp at hsp
  exact ⟨hnone, by simp [addArticle, hnone]⟩

/-- A sponsor container with otherwise well-formed attributes. -/
def tSponsor : Table :=
  ⟨some ⟨"http://sponsor-product.com", some "Acme Tool (Sponsor)"⟩,
   [⟨"font-family:arial", "A perfectly well formed summary text of the sponsor."⟩]⟩

/-- Witness for C5: the container titled exactly "Acme Tool (Sponsor)" is
excluded regardless of its link and summary span. -/
theorem sponsor_container_skipped_witness :
    tableRecord tSponsor = none ∧ addArticle [] tSponsor = [] :=
  sponsor_container_skipped [] tSponsor ⟨"http://sponsor-product.com", some "Acme Tool (Sponsor)"⟩
    "Acme Tool (Sponsor)" rfl rfl (by decide)

/-- C6: a container whose first hyperlink destination lacks the "http" scheme
marker or contains one of the two tracking/redirect domains produces no
record: its `tableRecord` is `none` and the loop step leaves any accumulator
unchanged — so the drop also never counts toward the 20-record cap. -/
theorem tracking_or_schemeless_link_skipped (acc : List Article) (t : Table) (a : ATag)
    (hlt : t.linkTag = some a)
    (hbad : strIn "http" a.href = false ∨ strIn "tldr.tech" a.href = true
      ∨ strIn "techplatforms.com" a.href = true) :
    tableRecord t = none ∧ addArticle acc t = acc := by
  have hnone : tableRecord t = none := by
    cases htr : tableRecord t with
    | none => rfl
    | some r =>
      obtain ⟨a', title', hlt', -, -, -, -, hhttp, htl, htp, -⟩ :=
        tableRecord_some_spec htr
      rw [hlt] at hlt'
      obtain rfl : a = a' := by injection hlt'
      rcases hbad with hb | hb | hb
      · rw [hhttp] at hb; exact absurd hb (by simp)
      · rw [htl] at hb; exact absurd hb (by simp)
      · rw [htp] at hb; exact absurd hb (by simp)
  exact ⟨hnone, by simp [addArticle, hnone]⟩

/-- A container with a tracking-domain link but well-formed title and span. -/
def tTracking : Table :=
  ⟨some ⟨"https://tldr.tech/redirect?x=1", some "A Good Looking Article Title"⟩,
   [⟨"font-family:arial", "A perfectly well formed summary text of this candidate."⟩]⟩

/-- Witness for C6: the candidate with link "https://tldr.tech/redirect?x=1"
is excluded even though its title and summary are well-formed. -/
theorem tracking_or_schemeless_link_skipped_witness :
    tableRecord tTracking = none ∧ addArticle [] tTracking = [] :=
  tracking_or_schemeless_link_skipped [] tTracking
    ⟨"https://tldr.tech/redirect?x=1", some "A Good Looking Article Title"⟩ rfl
    (Or.inr (Or.inl (by decide)))

/-- C7: `extract_articles_from_html` is a total function of its input; on the
internal-parse-failure path it returns the empty list, and an input whose
parse yields no candidate containers (e.g. non-HTML garbage, which the
lenient parser turns into a tree with no `<table align="center">` block)
yields the empty list as well. -/
theorem extract_total_never_raises :
    (∀ e : String, extract_articles_from_html (.error e) = []) ∧
    extract_articles_from_html (.ok []) = [] :=
  ⟨fun _ => rfl, rfl⟩

/-- C10: the tracking-domain rejection is substring containment over the whole
URL, not a hostname comparison: any container whose href contains "tldr.tech"
or "techplatforms.com" anywhere in the string produces no record and leaves
any accumulator unchanged. -/
theorem tracking_substring_anywhere_skipped (acc : List Article) (t : Table) (a : ATag)
    (hlt : t.linkTag = some a)
    (hbad : strIn "tldr.tech" a.href = true ∨ strIn "techplatforms.com" a.href = true) :
    tableRecord t = none ∧ addArticle acc t = acc := by
  have hnone : tableRecord t = none := by
    cases htr : tableRecord t with
    | none => rfl
    | some r =>
      obtain ⟨a', title', hlt', -, -, -, -, -, htl, htp, -⟩ :=
        tableRecord_some_spec htr
      rw [hlt] at hlt'
      obtain rfl : a = a' := by injection hlt'
      rcases hbad with hb | hb
      · rw [htl] at hb; exact absurd hb (by simp)
      · rw [htp] at hb; exact absurd hb (by simp)
  exact ⟨hnone, by simp [addArticle, hnone]⟩

/-- A container whose link is a legitimate-looking article URL that merely
mentions the tracking domain in a query parameter. -/
def tQueryRef : Table :=
  ⟨some ⟨"https://example.com/?ref=tldr.tech", some "An Otherwise Fine Article"⟩,
   [⟨"font-family:arial", "A perfectly well formed summary text of this candidate."⟩]⟩

/-- Witness for C10: "https://example.com/?ref=tldr.tech" is dropped although
"tldr.tech" only occurs in its query string. -/
theorem tracking_substring_anywhere_skipped_witness :
    tableRecord tQueryRef = none ∧ addArticle [] tQueryRef = [] :=
  tracking_substring_anywhere_skipped [] tQueryRef
    ⟨"https://example.com/?ref=tldr.tech", some "An Otherwise Fine Article"⟩ rfl
    (Or.inl (by decide))

/-- A Python value as returned by `get_email_body`: the `body` variable can
end up holding a decoded string, raw bytes (an empty `get_payload` result), or
None (an absent payload). -/
inductive PyVal where
  | str (s : String)
  | bytes (bs : List Nat)
  | pyNone
deriving DecidableEq

/-- One MIME part as `get_email_body` reads it: `get_content_type()`,
`get_content_charset()` (`none` when undeclared) and
`get_payload(decode=True)` (`none` when absent, possibly empty bytes). -/
structure MimePart where
  contentType : String
  charset : Option String
  payload : Option (List Nat)
deriving DecidableEq

/-- A decoded mail message: single-part, or multipart with its parts listed in
`msg.walk()` order. -/
inductive EmailMessage where
  | single (p : MimePart)
  | multi (parts : List MimePart)
deriving DecidableEq

/-- `body.decode(charset or 'utf-8')` with the bare-except fallback
`body.decode('utf-8', errors='ignore')` (src/main.py lines 155-158, 166-169).
The byte-level codecs are external runtime facilities passed as parameters:
`decodeAs cs bs` is the declared-charset decode (`none` when it raises) and
`decodeSub bs` the total lenient UTF-8 fallback. -/
def decodePayload (decodeAs : String → List Nat → Option String)
    (decodeSub : List Nat → String) (charset : Option String) (bs : List Nat) : String :=
  match decodeAs (charset.getD "utf-8") bs with
  | some s => s
  | none => decodeSub bs

/-- The multipart loop of `get_email_body` (src/main.py lines 148-159): walk
the parts; on a "text/html" part, assign its raw payload to `body`; only when
that payload is truthy (present and non-empty) decode it and break. `body` is
the running value of the Python variable of that name, initially `""`. -/
def bodyLoop (decodeAs : String → List Nat → Option String)
    (decodeSub : List Nat → String) (body : PyVal) : List MimePart → PyVal
  | [] => body
  | p :: rest =>
    if p.contentType == "text/html" then
      match p.payload with
      | none => bodyLoop decodeAs decodeSub PyVal.pyNone rest
      | some bs =>
        if bs.isEmpty then bodyLoop decodeAs decodeSub (PyVal.bytes bs) rest
        else PyVal.str (decodePayload decodeAs decodeSub p.charset bs)
    else bodyLoop decodeAs decodeSub body rest

/-- `get_email_body` (src/main.py lines 136-171). -/
def get_email_body (decodeAs : String → List Nat → Option String)
    (decodeSub : List Nat → String) : EmailMessage → PyVal
  | .multi parts => bodyLoop decodeAs decodeSub (PyVal.str "") parts
  | .single p =>
    if p.contentType == "text/html" then
      match p.payload with
      | none => PyVal.pyNone
      | some bs =>
        if bs.isEmpty then PyVal.bytes bs
        else PyVal.str (decodePayload decodeAs decodeSub p.charset bs)
    else PyVal.str ""

/-- Body extraction exactly as the specification words it (spec §4.2): if the
message is multipart, walk the parts in order and return the first part whose
content type is exactly "text/html", decoded with its declared charset
(lenient fallback), stopping at the first match; single-part returns its
payload only for "text/html"; no match returns the empty string.  Stated for
comparison with the code's `get_email_body`; the spec does not contemplate an
absent payload, embedded here as empty bytes. -/
def get_email_body_as_specified (decodeAs : String → List Nat → Option String)
    (decodeSub : List Nat → String) : EmailMessage → PyVal
  | .multi parts =>
    match parts.find? (fun p => p.contentType == "text/html") with
    | some p => PyVal.str (decodePayload decodeAs decodeSub p.charset (p.payload.getD []))
    | none => PyVal.str ""
  | .single p =>
    if p.contentType == "text/html" then
      PyVal.str (decodePayload decodeAs decodeSub p.charset (p.payload.getD []))
    else PyVal.str ""

/-- A concrete declared-charset decoder distinguishing empty from non-empty
payloads. -/
def cexDecodeAs : String → List Nat → Option String :=
  fun _ bs => some (if bs.isEmpty then "EMPTY" else "FULL")

/-- A concrete lenient fallback decoder. -/
def cexDecodeSub : List Nat → String := fun _ => "SUB"

/-- A multipart message whose first "text/html" part has an absent payload and
whose second "text/html" part carries bytes. -/
def cexMsg : EmailMessage :=
  .multi [⟨"text/html", none, none⟩, ⟨"text/html", some "utf-8", some [72]⟩]

/-- Counterexample to C8 as stated: the code does not stop at the first
"text/html" part — a first HTML part with an absent (falsy) payload is passed
over and the returned text comes from the second HTML part, diverging from the
specified first-match behaviour. -/
theorem get_email_body_counterexample :
    get_email_body cexDecodeAs cexDecodeSub cexMsg = PyVal.str "FULL" ∧
    get_email_body_as_specified cexDecodeAs cexDecodeSub cexMsg = PyVal.str "EMPTY" ∧
    get_email_body cexDecodeAs cexDecodeSub cexMsg ≠
      get_email_body_as_specified cexDecodeAs cexDecodeSub cexMsg := by
  exact ⟨rfl, rfl, by decide⟩

/-- A run of parts containing no "text/html" part leaves `body` untouched. -/
lemma bodyLoop_no_html (decodeAs : String → List Nat → Option String)
    (decodeSub : List Nat → String) :
    ∀ (parts : List MimePart) (b : PyVal),
      (∀ p ∈ parts, p.contentType ≠ "text/html") →
      bodyLoop decodeAs decodeSub b parts = b
  | [], _, _ => rfl
  | p :: rest, b, h => by
    have hp : (p.contentType == "text/html") = false := by
      simpa using h p (by simp)
    rw [bodyLoop, hp]
    simp only [Bool.false_eq_true, if_false]
    exact bodyLoop_no_html decodeAs decodeSub rest b (fun q hq => h q (by simp [hq]))

/-- The walk returns the decoded payload of the first "text/html" part whose
payload is present and non-empty, whatever `body` held before, provided every
earlier "text/html" part had an absent or empty payload. -/
lemma bodyLoop_first_nonempty (decodeAs : String → List Nat → Option String)
    (decodeSub : List Nat → String) (p : MimePart) (post : List MimePart)
    (bs : List Nat) (hct : p.contentType = "text/html") (hpl : p.payload = some bs)
    (hne : bs ≠ []) :
    ∀ (pre : List MimePart) (b : PyVal),
      (∀ q ∈ pre, q.contentType = "text/html" →
        q.payload = none ∨ q.payload = some []) →
      bodyLoop decodeAs decodeSub b (pre ++ p :: post) =
        PyVal.str (decodePayload decodeAs decodeSub p.charset bs)
  | [], b, _ => by
    have hbs : bs.isEmpty = false := by
      cases bs with
      | nil => exact absurd rfl hne
      | cons x xs => rfl
    rw [List.nil_append, bodyLoop, hpl]
    simp [hct, hbs]
  | q :: pre, b, h => by
    rw [List.cons_append, bodyLoop]
    by_cases hq : q.contentType = "text/html"
    · rcases h q (by simp) hq with hnone | hempty
      · rw [hnone]
        simp only [hq, beq_self_eq_true, if_true]
        exact bodyLoop_first_nonempty decodeAs decodeSub p post bs hct hpl hne pre
          PyVal.pyNone (fun q' hq' => h q' (by simp [hq']))
      · rw [hempty]
        simp only [hq, beq_self_eq_true, if_true, List.isEmpty_nil, if_true]
        exact bodyLoop_first_nonempty decodeAs decodeSub p post bs hct hpl hne pre
          (PyVal.bytes []) (fun q' hq' => h q' (by simp [hq']))
    · have hq' : (q.contentType == "text/html") = false := by simpa using hq
      rw [hq']
      simp only [Bool.false_eq_true, if_false]
      exact bodyLoop_first_nonempty decodeAs decodeSub p post bs hct hpl hne pre b
        (fun q' hq'' => h q' (by simp [hq'']))

/-- When the walk's remaining parts all have falsy-payload HTML parts at most,
the last HTML part `q` (no HTML part follows it) determines the final value of
`body`: None for an absent payload, b'' for an empty one, whatever `body` held
before. -/
lemma bodyLoop_last_falsy (decodeAs : String → List Nat → Option String)
    (decodeSub : List Nat → String) (q : MimePart) (post : List MimePart)
    (hq : q.contentType = "text/html")
    (hpost : ∀ q' ∈ post, q'.contentType ≠ "text/html") :
    ∀ (pre : List MimePart) (b : PyVal),
      (∀ q' ∈ pre, q'.contentType = "text/html" →
        q'.payload = none ∨ q'.payload = some []) →
      (q.payload = none →
        bodyLoop decodeAs decodeSub b (pre ++ q :: post) = PyVal.pyNone) ∧
      (q.payload = some [] →
        bodyLoop decodeAs decodeSub b (pre ++ q :: post) = PyVal.bytes [])
  | [], b, _ => by
    constructor
    · intro hnone
      rw [List.nil_append, bodyLoop, hnone]
      simp only [hq, beq_self_eq_true, if_true]
      exact bodyLoop_no_html decodeAs decodeSub post PyVal.pyNone hpost
    · intro hempty
      rw [List.nil_append, bodyLoop, hempty]
      simp only [hq, beq_self_eq_true, if_true, List.isEmpty_nil, if_true]
      exact bodyLoop_no_html decodeAs decodeSub post (PyVal.bytes []) hpost
  | p :: pre, b, h => by
    rw [List.cons_append, bodyLoop]
    by_cases hp : p.contentType = "text/html"
    · rcases h p (by simp) hp with hnone | hempty
      · rw [hnone]
        simp only [hp, beq_self_eq_true, if_true]
        exact bodyLoop_last_falsy decodeAs decodeSub q post hq hpost pre PyVal.pyNone
          (fun q' hq' => h q' (by simp [hq']))
      · rw [hempty]
        simp only [hp, beq_self_eq_true, if_true, List.isEmpty_nil, if_true]
        exact bodyLoop_last_falsy decodeAs decodeSub q post hq hpost pre (PyVal.bytes [])
          (fun q' hq' => h q' (by simp [hq']))
    · have hp' : (p.contentType == "text/html") = false := by simpa using hp
      rw [hp']
      simp only [Bool.false_eq_true, if_false]
      exact bodyLoop_last_falsy decodeAs decodeSub q post hq hpost pre b
        (fun q' hq'' => h q' (by simp [hq'']))

/-- C8 (amended): body extraction walks the parts in order and returns the
decoded payload of the first part whose content type is "text/html" *and*
whose raw payload is present and non-empty, decoded with its declared charset
(falling back to lenient UTF-8 when that decode fails); HTML parts with an
absent or empty payload do not stop the walk.  When no part at all has
content type "text/html" the result is the empty string.  When the message's
HTML parts all carry absent or empty payloads, the returned value is the last
HTML part's falsy payload — None for an absent payload, b'' for an empty one —
rather than a string.  A single-part message yields the empty string when its
content type is not "text/html" and its decoded payload when it is (and the
payload is non-empty). -/
theorem get_email_body_first_nonempty_html (decodeAs : String → List Nat → Option String)
    (decodeSub : List Nat → String) :
    (∀ parts, (∀ p ∈ parts, p.contentType ≠ "text/html") →
      get_email_body decodeAs decodeSub (.multi parts) = PyVal.str "") ∧
    (∀ pre p post bs, p.contentType = "text/html" → p.payload = some bs → bs ≠ [] →
      (∀ q ∈ pre, q.contentType = "text/html" → q.payload = none ∨ q.payload = some []) →
      get_email_body decodeAs decodeSub (.multi (pre ++ p :: post)) =
        PyVal.str (decodePayload decodeAs decodeSub p.charset bs)) ∧
    (∀ p, p.contentType ≠ "text/html" →
      get_email_body decodeAs decodeSub (.single p) = PyVal.str "") ∧
    (∀ p bs, p.contentType = "text/html" → p.payload = some bs → bs ≠ [] →
      get_email_body decodeAs decodeSub (.single p) =
        PyVal.str (decodePayload decodeAs decodeSub p.charset bs)) ∧
    (∀ pre q post, q.contentType = "text/html" →
      (∀ q' ∈ pre, q'.contentType = "text/html" →
        q'.payload = none ∨ q'.payload = some []) →
      (∀ q' ∈ post, q'.contentType ≠ "text/html") →
      (q.payload = none →
        get_email_body decodeAs decodeSub (.multi (pre ++ q :: post)) = PyVal.pyNone) ∧
      (q.payload = some [] →
        get_email_body decodeAs decodeSub (.multi (pre ++ q :: post)) = PyVal.bytes [])) := by
  refine ⟨?_, ?_, ?_, ?_, ?_⟩
  · intro parts h
    exact bodyLoop_no_html decodeAs decodeSub parts (PyVal.str "") h
  · intro pre p post bs hct hpl hne h
    exact bodyLoop_first_nonempty decodeAs decodeSub p post bs hct hpl hne pre
      (PyVal.str "") h
  · intro p h
    have h' : (p.contentType == "text/html") = false := by simpa using h
    rw [get_email_body, h']
    simp
  · intro p bs hct hpl hne
    have hbs : bs.isEmpty = false := by
      cases bs with
      | nil => exact absurd rfl hne
      | cons x xs => rfl
    rw [get_email_body, hpl]
    simp [hct, hbs]
  · intro pre q post hq hpre hpost
    exact bodyLoop_last_falsy decodeAs decodeSub q post hq hpost pre (PyVal.str "") hpre

/-- Witness for the amended C8: a plain-text part and a payload-less HTML part
are walked over, and the first HTML part with bytes is the one decoded; a
non-HTML single-part message yields the empty string; a message whose only
HTML part has an absent payload returns None, and one whose only HTML part
has an empty payload returns b''. -/
theorem get_email_body_first_nonempty_html_witness :
    get_email_body cexDecodeAs cexDecodeSub
        (.multi ([⟨"text/plain", none, some [1]⟩, ⟨"text/html", none, none⟩] ++
          ⟨"text/html", some "utf-8", some [72, 73]⟩ :: [])) =
      PyVal.str (decodePayload cexDecodeAs cexDecodeSub (some "utf-8") [72, 73]) ∧
    get_email_body cexDecodeAs cexDecodeSub (.single ⟨"text/plain", none, some [1]⟩) =
      PyVal.str "" ∧
    get_email_body cexDecodeAs cexDecodeSub
        (.multi ([] ++ ⟨"text/html", none, none⟩ :: [])) = PyVal.pyNone ∧
    get_email_body cexDecodeAs cexDecodeSub
        (.multi ([] ++ ⟨"text/html", none, some []⟩ :: [])) = PyVal.bytes [] :=
  ⟨(get_email_body_first_nonempty_html cexDecodeAs cexDecodeSub).2.1
      [⟨"text/plain", none, some [1]⟩, ⟨"text/html", none, none⟩]
      ⟨"text/html", some "utf-8", some [72, 73]⟩ [] [72, 73] rfl rfl (by decide) (by decide),
   (get_email_body_first_nonempty_html cexDecodeAs cexDecodeSub).2.2.1
      ⟨"text/plain", none, some [1]⟩ (by decide),
   ((get_email_body_first_nonempty_html cexDecodeAs cexDecodeSub).2.2.2.2
      [] ⟨"text/html", none, none⟩ [] rfl (by simp) (by simp)).1 rfl,
   ((get_email_body_first_nonempty_html cexDecodeAs cexDecodeSub).2.2.2.2
      [] ⟨"text/html", none, some []⟩ [] rfl (by simp) (by simp)).2 rfl⟩

/-- One element of the list returned by the MIME encoded-word parser
(`email.header.decode_header`): either raw bytes with a declared encoding
(`none` when undeclared), or an already-decoded string. -/
inductive HeaderPart where
  | bytesPart (bs : List Nat) (enc : Option String)
  | strPart (s : String)
deriving DecidableEq

/-- The contribution of one header part in `decode_email_header`
(src/main.py lines 122-129): a string part is appended as is; a bytes part is
decoded with `part.decode(encoding or 'utf-8')`, falling back to the lenient
UTF-8 decode when the declared decode raises.  The codecs are the same
external parameters as for the body. -/
def decodeHeaderPart (decodeAs : String → List Nat → Option String)
    (decodeSub : List Nat → String) : HeaderPart → String
  | .strPart s => s
  | .bytesPart bs enc =>
    match decodeAs (enc.getD "utf-8") bs with
    | some s => s
    | none => decodeSub bs

/-- `decode_email_header` (src/main.py lines 106-133), on the part list the
external encoded-word parser produced: every part is decoded and the results
are concatenated in order into `decoded_str`, starting from `""`. -/
def decode_email_header (decodeAs : String → List Nat → Option String)
    (decodeSub : List Nat → String) (parts : List HeaderPart) : String :=
  parts.foldl (fun acc p => acc ++ decodeHeaderPart decodeAs decodeSub p) ""

/-- The header fold peels its accumulator off at the front. -/
lemma foldl_headerParts_acc (g : HeaderPart → String) :
    ∀ (ps : List HeaderPart) (acc : String),
      ps.foldl (fun a p => a ++ g p) acc = acc ++ ps.foldl (fun a p => a ++ g p) ""
  | [], acc => by simp [String.append_empty]
  | p :: ps, acc => by
    rw [List.foldl_cons, List.foldl_cons,
      foldl_headerParts_acc g ps (acc ++ g p), foldl_headerParts_acc g ps ("" ++ g p),
      String.empty_append, String.append_assoc]

/-- The lenient UTF-8 decode the header fallback actually invokes,
`bytes.decode('utf-8', errors='ignore')` (src/main.py line 127), modelled on
the byte domain used in this development — ASCII bytes below 0x80 and the
byte 0xff, which is invalid at every position of a UTF-8 stream: a valid byte
decodes to its character, an invalid byte is silently dropped. -/
def utf8DecodeDrop (bs : List Nat) : String :=
  String.mk ((bs.filter (fun b => decide (b < 128))).map Char.ofNat)

/-- The substituting decode `bytes.decode('utf-8', errors='replace')`, the
behaviour the specification's words describe ("invalid-byte substitution"),
on the same byte domain: an invalid byte becomes the replacement character
U+FFFD instead of disappearing. -/
def utf8DecodeReplace (bs : List Nat) : String :=
  String.mk (bs.map (fun b => if b < 128 then Char.ofNat b else Char.ofNat 0xFFFD))

/-- Counterexample to C9 as stated: on a part holding the lone invalid byte
0xff whose declared encoding fails to decode, the code's fallback
(errors='ignore') drops the byte and contributes the empty string, while the
claimed "UTF-8 with invalid-byte substitution" fallback would contribute the
replacement character — the two results differ. -/
theorem decode_header_substitution_counterexample :
    decode_email_header (fun _ _ => none) utf8DecodeDrop
        [HeaderPart.bytesPart [255] (some "euc-kr")] = "" ∧
    decode_email_header (fun _ _ => none) utf8DecodeReplace
        [HeaderPart.bytesPart [255] (some "euc-kr")] = String.mk [Char.ofNat 0xFFFD] ∧
    decode_email_header (fun _ _ => none) utf8DecodeDrop
        [HeaderPart.bytesPart [255] (some "euc-kr")] ≠
      decode_email_header (fun _ _ => none) utf8DecodeReplace
        [HeaderPart.bytesPart [255] (some "euc-kr")] :=
  ⟨rfl, rfl, by decide⟩

/-- C9 (amended): header decoding decodes every part and concatenates the
results in order (it is a homomorphism from part-list concatenation to string
concatenation), a string part contributes itself, and a bytes part whose
declared encoding decodes contributes that decode; a bytes part whose
declared encoding fails falls back to lenient UTF-8 decoding in which invalid
bytes are *dropped* (errors='ignore'), not substituted — the function is
total, so it never raises. -/
theorem decode_header_concat_and_drop (decodeAs : String → List Nat → Option String) :
    (∀ ps qs, decode_email_header decodeAs utf8DecodeDrop (ps ++ qs) =
      decode_email_header decodeAs utf8DecodeDrop ps ++
        decode_email_header decodeAs utf8DecodeDrop qs) ∧
    (∀ s, decode_email_header decodeAs utf8DecodeDrop [.strPart s] = s) ∧
    (∀ bs enc s, decodeAs (enc.getD "utf-8") bs = some s →
      decode_email_header decodeAs utf8DecodeDrop [.bytesPart bs enc] = s) ∧
    (∀ bs enc, decodeAs (enc.getD "utf-8") bs = none →
      decode_email_header decodeAs utf8DecodeDrop [.bytesPart bs enc] =
        String.mk ((bs.filter (fun b => decide (b < 128))).map Char.ofNat)) := by
  refine ⟨?_, ?_, ?_, ?_⟩
  · intro ps qs
    unfold decode_email_header
    rw [List.foldl_append,
      foldl_headerParts_acc (decodeHeaderPart decodeAs utf8DecodeDrop) qs
        (ps.foldl (fun a p => a ++ decodeHeaderPart decodeAs utf8DecodeDrop p) "")]
  · intro s
    simp [decode_email_header, decodeHeaderPart, String.empty_append]
  · intro bs enc s h
    simp [decode_email_header, decodeHeaderPart, h, String.empty_append]
  · intro bs enc h
    simp [decode_email_header, decodeHeaderPart, utf8DecodeDrop, h, String.empty_append]

/-- Witness for the amended C9 at concrete inputs: a subject made of an
encoded-word bytes part that decodes, a failing bytes part whose invalid
leading byte 0xff is dropped (leaving only the ASCII byte, decoded to "H"),
and a plain string part, concatenated in order. -/
theorem decode_header_concat_and_drop_witness :
    decode_email_header (fun cs _ => if cs == "euc-kr" then some "OK" else none)
        utf8DecodeDrop ([HeaderPart.bytesPart [1] (some "euc-kr")] ++
          [HeaderPart.bytesPart [255, 72] none, HeaderPart.strPart " tail"]) =
      decode_email_header (fun cs _ => if cs == "euc-kr" then some "OK" else none)
          utf8DecodeDrop [HeaderPart.bytesPart [1] (some "euc-kr")] ++
        decode_email_header (fun cs _ => if cs == "euc-kr" then some "OK" else none)
          utf8DecodeDrop [HeaderPart.bytesPart [255, 72] none, HeaderPart.strPart " tail"] ∧
    decode_email_header (fun cs _ => if cs == "euc-kr" then some "OK" else none)
        utf8DecodeDrop [HeaderPart.bytesPart [1] (some "euc-kr")] = "OK" ∧
    decode_email_header (fun cs _ => if cs == "euc-kr" then some "OK" else none)
        utf8DecodeDrop [HeaderPart.bytesPart [255, 72] none] =
      String.mk (([255, 72].filter (fun b => decide (b < 128))).map Char.ofNat) ∧
    String.mk (([255, 72].filter (fun b => decide (b < 128))).map Char.ofNat) = "H" :=
  ⟨(decode_header_concat_and_drop _).1 _ _,
   (decode_header_concat_and_drop _).2.2.1 [1] (some "euc-kr") "OK" (by decide),
   (decode_header_concat_and_drop _).2.2.2 [255, 72] none (by decide),
   by decide⟩
